import Mathlib

/-!
Verification development for the Sia renter's Contract Lifecycle &
Redundancy Repair Engine.

The repository's own sources under scrutiny are the renter integration
tests (`src/unnamed/part_000`); the renter implementation they exercise is
not part of the repository snapshot.  Following the specification
(`spec.md`), the state machine of contracts, the financial ledger, the
redundancy monitor, the repair scheduler, the download history and the
renter settings are modelled here as executable Lean definitions.  Where a
formula is pinned directly by a test in `src/` (the spending aggregation of
`checkContractVsReportedSpending`, the wallet check of
`checkBalanceVsSpending`, the 3% spending-renewal threshold of
`renewContractsBySpending`, the inclusive clear-range endpoints of
`testClearDownloadHistory`, the end-height formulas of
`TestRenterContractEndHeight`) the model follows the test's formula.
-/

namespace Sia

/-- A per-host storage contract, as described in spec §3 and exposed by the
contract listing API used throughout the tests (`api.RenterContract`). -/
structure Contract where
  id : Nat
  hostKey : Nat
  startHeight : Nat
  endHeight : Nat
  totalCost : Nat
  renterFunds : Nat
  fees : Nat
  uploadSpending : Nat
  downloadSpending : Nat
  storageSpending : Nat
  goodForUpload : Bool
  goodForRenew : Bool
deriving DecidableEq, Repr

/-- The renter's allowance (spec §3): prepaid budget for one funding cycle. -/
structure Allowance where
  funds : Nat
  hosts : Nat
  period : Nat
  renewWindow : Nat
deriving DecidableEq, Repr

/-- Modelled from the spec: global state of the contract store, wallet and
period bookkeeping (spec §2, §4.1).  The renter implementation holding this
state is not under `src/`; only its tests are. -/
structure RenterState where
  allowance : Allowance
  height : Nat
  currentPeriodStart : Nat
  windowSize : Nat
  maturityDelay : Nat
  active : List Contract
  inactive : List Contract
  expired : List Contract
  nextId : Nat
  numRenewals : Nat
  walletConfirmed : Nat
  initialWallet : Nat
  contractsLost : Bool
deriving DecidableEq, Repr

/-- The four spending categories of one contract added together, exactly as
`checkContractVsReportedSpending` adds them (src/unnamed/part_000:1661-1666). -/
def spendOf (c : Contract) : Nat :=
  c.fees + c.downloadSpending + c.uploadSpending + c.storageSpending

/-- `endHeight + windowSize + maturityDelay`, the height at which a
contract's withheld funds are released (src/unnamed/part_000:1653-1658). -/
def maturity (ws md : Nat) (c : Contract) : Nat := c.endHeight + ws + md

/-- Sum of a Nat-valued function over a contract list. -/
def sumMap (f : Contract → Nat) (l : List Contract) : Nat := (l.map f).sum

/-- Contribution of an old contract formed in the current period
(`contract.StartHeight >= rg.CurrentPeriod`, src/unnamed/part_000:1644). -/
def curOf (ps : Nat) (f : Contract → Nat) (c : Contract) : Nat :=
  if ps ≤ c.startHeight then f c else 0

/-- Contribution of an active contract with `GoodForRenew`
(src/unnamed/part_000:1670). -/
def gfrOf (f : Contract → Nat) (c : Contract) : Nat :=
  if c.goodForRenew then f c else 0

/-- Withheld renter funds of an old contract from a previous period that is
still inside its host-side maturity window (src/unnamed/part_000:1653-1655). -/
def withheldOf (ps ws md h : Nat) (c : Contract) : Nat :=
  if ps ≤ c.startHeight then 0
  else if h < maturity ws md c then c.renterFunds else 0

/-- Previous-period spending of an old contract
(src/unnamed/part_000:1661-1666: both else-branches add all categories). -/
def prevOf (ps : Nat) (c : Contract) : Nat :=
  if ps ≤ c.startHeight then 0 else spendOf c

/-- Largest maturity height among withheld contracts
(src/unnamed/part_000:1656-1659). -/
def releaseBlockOf (ps ws md h : Nat) (l : List Contract) : Nat :=
  l.foldr
    (fun c m =>
      if ps ≤ c.startHeight then m
      else if h < maturity ws md c then max (maturity ws md c) m else m) 0

/-- Old contracts are the inactive and expired ones, in the order the tests
concatenate them (src/unnamed/part_000:948). -/
def oldContracts (s : RenterState) : List Contract := s.inactive ++ s.expired

def fmFees (s : RenterState) : Nat :=
  sumMap (curOf s.currentPeriodStart Contract.fees) (oldContracts s) +
    sumMap (gfrOf Contract.fees) s.active

def fmAlloc (s : RenterState) : Nat :=
  sumMap (curOf s.currentPeriodStart Contract.totalCost) (oldContracts s) +
    sumMap (gfrOf Contract.totalCost) s.active

def fmUp (s : RenterState) : Nat :=
  sumMap (curOf s.currentPeriodStart Contract.uploadSpending) (oldContracts s) +
    sumMap (gfrOf Contract.uploadSpending) s.active

def fmDown (s : RenterState) : Nat :=
  sumMap (curOf s.currentPeriodStart Contract.downloadSpending) (oldContracts s) +
    sumMap (gfrOf Contract.downloadSpending) s.active

def fmStore (s : RenterState) : Nat :=
  sumMap (curOf s.currentPeriodStart Contract.storageSpending) (oldContracts s) +
    sumMap (gfrOf Contract.storageSpending) s.active

def fmWithheld (s : RenterState) : Nat :=
  sumMap (withheldOf s.currentPeriodStart s.windowSize s.maturityDelay s.height)
    (oldContracts s)

def fmPrev (s : RenterState) : Nat :=
  sumMap (prevOf s.currentPeriodStart) (oldContracts s)

/-- Total current-period spending: fees plus the three usage categories,
as added by `checkContractVsReportedSpending` (src/unnamed/part_000:1627-1628). -/
def fmSpent (s : RenterState) : Nat := fmFees s + fmUp s + fmDown s + fmStore s

/-- Modelled from the spec: `unspent` is the part of `allowance.funds` not
yet spent in the current period (spec §3 FinancialMetrics, §4.3). -/
def fmUnspent (s : RenterState) : Nat := s.allowance.funds - fmSpent s

/-- The renter's financial metrics (spec §3), recomputed from the contract
store exactly as the reference aggregation in
`checkContractVsReportedSpending` does (src/unnamed/part_000:1642-1680). -/
structure FinancialMetrics where
  contractFees : Nat
  totalAllocated : Nat
  uploadSpending : Nat
  downloadSpending : Nat
  storageSpending : Nat
  withheldFunds : Nat
  previousSpending : Nat
  releaseBlock : Nat
  unspent : Nat
deriving DecidableEq, Repr

def financialMetrics (s : RenterState) : FinancialMetrics :=
  { contractFees := fmFees s
    totalAllocated := fmAlloc s
    uploadSpending := fmUp s
    downloadSpending := fmDown s
    storageSpending := fmStore s
    withheldFunds := fmWithheld s
    previousSpending := fmPrev s
    releaseBlock :=
      releaseBlockOf s.currentPeriodStart s.windowSize s.maturityDelay s.height
        (oldContracts s)
    unspent := fmUnspent s }

/-! Summation helper lemmas. -/

theorem sumMap_nil (f : Contract → Nat) : sumMap f [] = 0 := rfl

theorem sumMap_cons (f : Contract → Nat) (c : Contract) (l : List Contract) :
    sumMap f (c :: l) = f c + sumMap f l := by
  simp [sumMap]

theorem sumMap_append (f : Contract → Nat) (l₁ l₂ : List Contract) :
    sumMap f (l₁ ++ l₂) = sumMap f l₁ + sumMap f l₂ := by
  simp [sumMap]

theorem sumMap_congr {f g : Contract → Nat} {l : List Contract}
    (h : ∀ c ∈ l, f c = g c) : sumMap f l = sumMap g l := by
  induction l with
  | nil => rfl
  | cons c l ih =>
    rw [sumMap_cons, sumMap_cons, h c (List.mem_cons_self c l),
      ih fun x hx => h x (List.mem_cons_of_mem c hx)]

theorem sumMap_add (f g : Contract → Nat) (l : List Contract) :
    sumMap (fun c => f c + g c) l = sumMap f l + sumMap g l := by
  induction l with
  | nil => rfl
  | cons c l ih =>
    rw [sumMap_cons, sumMap_cons, sumMap_cons, ih]
    omega

theorem sumMap_le {f g : Contract → Nat} {l : List Contract}
    (h : ∀ c ∈ l, f c ≤ g c) : sumMap f l ≤ sumMap g l := by
  induction l with
  | nil => exact Nat.le_refl 0
  | cons c l ih =>
    rw [sumMap_cons, sumMap_cons]
    exact Nat.add_le_add (h c (List.mem_cons_self c l))
      (ih fun x hx => h x (List.mem_cons_of_mem c hx))

/-! The contract lifecycle state machine (spec §4.1 and §4.2).  Steps are
modelled from the spec; threshold formulas and new-contract end heights
follow the formulas pinned by the tests in `src/unnamed/part_000`. -/

/-- A contract as formed at the start of a period.  Its end height is the
end of the current period (src/unnamed/part_000:963-969), its spending
categories are zero and both eligibility flags are true (spec §3). -/
def freshContract (n hk h ps per cost fee : Nat) : Contract :=
  { id := n, hostKey := hk, startHeight := h, endHeight := ps + per
    totalCost := cost, renterFunds := cost - fee, fees := fee
    uploadSpending := 0, downloadSpending := 0, storageSpending := 0
    goodForUpload := true, goodForRenew := true }

/-- The contract produced by renewing `c`: fresh id, same host key, zero
spending categories, fees set to the renewal fee (spec §4.2 item 4). -/
def renewedContract (c : Contract) (n h eh cost fee : Nat) : Contract :=
  { id := n, hostKey := c.hostKey, startHeight := h, endHeight := eh
    totalCost := cost, renterFunds := cost - fee, fees := fee
    uploadSpending := 0, downloadSpending := 0, storageSpending := 0
    goodForUpload := true, goodForRenew := true }

/-- Renew a whole list of contracts, giving them consecutive fresh ids; the
end height of each renewal is computed from its predecessor by `ehOf`. -/
def renewList (h cost fee : Nat) (ehOf : Contract → Nat) :
    List Contract → Nat → List Contract
  | [], _ => []
  | c :: rest, n =>
      renewedContract c n h (ehOf c) cost fee :: renewList h cost fee ehOf rest (n + 1)

/-- Move `a` hastings of a contract's remaining funds into upload spending. -/
def addUpload (a : Nat) (c : Contract) : Contract :=
  { c with renterFunds := c.renterFunds - a, uploadSpending := c.uploadSpending + a }

/-- Move `a` hastings into download spending. -/
def addDownload (a : Nat) (c : Contract) : Contract :=
  { c with renterFunds := c.renterFunds - a, downloadSpending := c.downloadSpending + a }

/-- Move `a` hastings into storage spending. -/
def addStorage (a : Nat) (c : Contract) : Contract :=
  { c with renterFunds := c.renterFunds - a, storageSpending := c.storageSpending + a }

/-- Renter funds of an old previous-period contract whose maturity height is
exactly `h + 1`: these funds return to the wallet when the chain advances to
`h + 1` (spec §3: withheld funds are released after
`endHeight + hostWindowSize + maturityDelay` blocks). -/
def maturedNow (ps ws md h : Nat) (c : Contract) : Nat :=
  if ps ≤ c.startHeight then 0
  else if maturity ws md c = h + 1 then c.renterFunds else 0

/-- Labels for the steps of the contract state machine. -/
inductive StepKind where
  | form (hk cost fee : Nat)
  | spendUpload (a : Nat)
  | spendDownload (a : Nat)
  | spendStorage (a : Nat)
  | renewWindow (cost fee : Nat)
  | renewSpending (cost fee : Nat)
  | failRenew
  | expire
  | advance
  | newPeriod
deriving DecidableEq, Repr

/-- Modelled from the spec: one transition of the contract store
(spec §4.1 transitions, §4.2 renewal triggers, §4.3 ledger movements).
Guards mirror the spec: renewal requires `goodForRenew` and either the
renew-window trigger (`currentHeight + renewWindow >= endHeight`, spec §4.2
item 1) or the spending-exhaustion trigger (`renterFunds / totalCost`
below 3%, the threshold pinned at src/unnamed/part_000:1834-1835); forming
or renewing contracts consumes confirmed wallet funds and stays within the
allowance. -/
inductive Step : RenterState → StepKind → RenterState → Prop where
  | form (s : RenterState) (hk cost fee : Nat)
      (hroom : s.active.length < s.allowance.hosts)
      (hfee : fee ≤ cost)
      (hwallet : cost ≤ s.walletConfirmed)
      (halloc : fmAlloc s + cost ≤ s.allowance.funds)
      (hheight : s.currentPeriodStart ≤ s.height) :
      Step s (.form hk cost fee)
        { s with
          active :=
            freshContract s.nextId hk s.height s.currentPeriodStart
              s.allowance.period cost fee :: s.active
          nextId := s.nextId + 1
          walletConfirmed := s.walletConfirmed - cost }
  | spendUpload (s : RenterState) (l₁ l₂ : List Contract) (c : Contract) (a : Nat)
      (hsplit : s.active = l₁ ++ c :: l₂)
      (ha : a ≤ c.renterFunds) :
      Step s (.spendUpload a) { s with active := l₁ ++ addUpload a c :: l₂ }
  | spendDownload (s : RenterState) (l₁ l₂ : List Contract) (c : Contract) (a : Nat)
      (hsplit : s.active = l₁ ++ c :: l₂)
      (ha : a ≤ c.renterFunds) :
      Step s (.spendDownload a) { s with active := l₁ ++ addDownload a c :: l₂ }
  | spendStorage (s : RenterState) (l₁ l₂ : List Contract) (c : Contract) (a : Nat)
      (hsplit : s.active = l₁ ++ c :: l₂)
      (ha : a ≤ c.renterFunds) :
      Step s (.spendStorage a) { s with active := l₁ ++ addStorage a c :: l₂ }
  | renewWindow (s : RenterState) (cost fee : Nat)
      (hn : s.active.length = s.allowance.hosts)
      (hall : ∀ c ∈ s.active, c.goodForRenew = true ∧
        c.endHeight ≤ s.height + s.allowance.renewWindow ∧
        (s.currentPeriodStart ≤ c.startHeight ∨
          s.height < maturity s.windowSize s.maturityDelay c))
      (hfee : fee ≤ cost)
      (hwallet : s.allowance.hosts * cost ≤ s.walletConfirmed)
      (halloc : fmAlloc s + s.allowance.hosts * cost ≤ s.allowance.funds)
      (hheight : s.currentPeriodStart ≤ s.height) :
      Step s (.renewWindow cost fee)
        { s with
          active :=
            renewList s.height cost fee
              (fun _ =>
                s.currentPeriodStart + 2 * s.allowance.period - s.allowance.renewWindow)
              s.active s.nextId
          inactive := s.active ++ s.inactive
          nextId := s.nextId + s.active.length
          numRenewals := s.numRenewals + 1
          walletConfirmed := s.walletConfirmed - s.allowance.hosts * cost }
  | renewSpending (s : RenterState) (cost fee : Nat)
      (hn : s.active.length = s.allowance.hosts)
      (hall : ∀ c ∈ s.active, c.goodForRenew = true ∧
        c.renterFunds * 100 < c.totalCost * 3 ∧
        (s.currentPeriodStart ≤ c.startHeight ∨
          s.height < maturity s.windowSize s.maturityDelay c))
      (hfee : fee ≤ cost)
      (hwallet : s.allowance.hosts * cost ≤ s.walletConfirmed)
      (halloc : fmAlloc s + s.allowance.hosts * cost ≤ s.allowance.funds)
      (hheight : s.currentPeriodStart ≤ s.height) :
      Step s (.renewSpending cost fee)
        { s with
          active := renewList s.height cost fee Contract.endHeight s.active s.nextId
          inactive := s.active ++ s.inactive
          nextId := s.nextId + s.active.length
          numRenewals := s.numRenewals + 1
          walletConfirmed := s.walletConfirmed - s.allowance.hosts * cost }
  | failRenew (s : RenterState) (l₁ l₂ : List Contract) (c : Contract)
      (hsplit : s.active = l₁ ++ c :: l₂)
      (hgfr : c.goodForRenew = true)
      (hmat : s.currentPeriodStart ≤ c.startHeight ∨
        s.height < maturity s.windowSize s.maturityDelay c) :
      Step s .failRenew
        { s with
          active := l₁ ++ l₂
          inactive := { c with goodForRenew := false, goodForUpload := false } :: s.inactive
          contractsLost := true }
  | expire (s : RenterState) (l₁ l₂ : List Contract) (c : Contract)
      (hsplit : s.inactive = l₁ ++ c :: l₂)
      (hmat : maturity s.windowSize s.maturityDelay c < s.height) :
      Step s .expire { s with inactive := l₁ ++ l₂, expired := c :: s.expired }
  | advance (s : RenterState) :
      Step s .advance
        { s with
          height := s.height + 1
          walletConfirmed := s.walletConfirmed +
            sumMap (maturedNow s.currentPeriodStart s.windowSize s.maturityDelay s.height)
              (oldContracts s) }
  | newPeriod (s : RenterState)
      (hp : s.currentPeriodStart + s.allowance.period ≤ s.height)
      (hold : ∀ c ∈ oldContracts s, s.currentPeriodStart ≤ c.startHeight →
        c.startHeight < s.currentPeriodStart + s.allowance.period →
        s.height < maturity s.windowSize s.maturityDelay c) :
      Step s .newPeriod
        { s with currentPeriodStart := s.currentPeriodStart + s.allowance.period }

/-- The state right after the allowance is set: no contracts, no renewals,
the whole wallet balance confirmed and untouched. -/
def initialState (a : Allowance) (ws md bal h0 : Nat) : RenterState :=
  { allowance := a, height := h0, currentPeriodStart := h0
    windowSize := ws, maturityDelay := md
    active := [], inactive := [], expired := []
    nextId := 0, numRenewals := 0
    walletConfirmed := bal, initialWallet := bal, contractsLost := false }

/-- States reachable from some initial state by contract-lifecycle steps. -/
inductive Reachable : RenterState → Prop where
  | init (a : Allowance) (ws md bal h0 : Nat) :
      Reachable (initialState a ws md bal h0)
  | step {s : RenterState} {k : StepKind} {s' : RenterState} :
      Reachable s → Step s k s' → Reachable s'

/-! Invariants of the machine. -/

/-- Every contract of the store, in one list. -/
def allContracts (s : RenterState) : List Contract :=
  s.active ++ s.inactive ++ s.expired

/-- Per-contract fund conservation: the four spending categories plus the
remaining renter funds make up exactly the funds committed at formation. -/
def conserved (c : Contract) : Prop :=
  c.fees + c.uploadSpending + c.downloadSpending + c.storageSpending +
    c.renterFunds = c.totalCost

/-- Combined ledger contribution of an old contract: allocation if it is a
current-period contract, else withheld funds plus previous spending. -/
def ledgerOldC (ps ws md h : Nat) (c : Contract) : Nat :=
  curOf ps Contract.totalCost c + (withheldOf ps ws md h c + prevOf ps c)

/-- Combined ledger contribution of an active contract. -/
def ledgerActC (c : Contract) : Nat := gfrOf Contract.totalCost c

/-- Everything the ledger accounts for besides the confirmed balance. -/
def ledgerTotal (s : RenterState) : Nat :=
  s.walletConfirmed + (fmAlloc s + fmWithheld s + fmPrev s)

/-- The inductive invariant of the contract machine. -/
structure Inv (s : RenterState) : Prop where
  cons : ∀ c ∈ allContracts s, conserved c
  alloc : fmAlloc s ≤ s.allowance.funds
  ledger : ledgerTotal s = s.initialWallet
  idlt : ∀ c ∈ allContracts s, c.id < s.nextId
  nodup : ((allContracts s).map Contract.id).Nodup
  count : s.contractsLost = false →
    s.inactive.length + s.expired.length = s.allowance.hosts * s.numRenewals

theorem sumMap_ledgerOldC (ps ws md h : Nat) (l : List Contract) :
    sumMap (ledgerOldC ps ws md h) l =
      sumMap (curOf ps Contract.totalCost) l +
        (sumMap (withheldOf ps ws md h) l + sumMap (prevOf ps) l) := by
  induction l with
  | nil => rfl
  | cons c l ih =>
    rw [sumMap_cons, sumMap_cons, sumMap_cons, sumMap_cons, ih]
    unfold ledgerOldC
    omega

theorem sumMap_ledgerActC (l : List Contract) :
    sumMap ledgerActC l = sumMap (gfrOf Contract.totalCost) l :=
  sumMap_congr fun _ _ => rfl

theorem fmTriple (s : RenterState) :
    fmAlloc s + fmWithheld s + fmPrev s =
      sumMap (ledgerOldC s.currentPeriodStart s.windowSize s.maturityDelay s.height)
        (oldContracts s) + sumMap ledgerActC s.active := by
  unfold fmAlloc fmWithheld fmPrev
  rw [sumMap_ledgerOldC, sumMap_ledgerActC]
  omega

theorem ledgerOldC_eq_totalCost {ps ws md h : Nat} {c : Contract}
    (hc : conserved c) (hor : ps ≤ c.startHeight ∨ h < maturity ws md c) :
    ledgerOldC ps ws md h c = c.totalCost := by
  unfold conserved at hc
  unfold ledgerOldC curOf withheldOf prevOf spendOf
  split_ifs with h1 h2 <;> omega

theorem spendOf_le_totalCost {c : Contract} (hc : conserved c) :
    spendOf c ≤ c.totalCost := by
  unfold conserved at hc
  unfold spendOf
  omega

theorem curOf_le_gfrOf {c : Contract} (hgfr : c.goodForRenew = true)
    (f : Contract → Nat) (ps : Nat) : curOf ps f c ≤ gfrOf f c := by
  simp only [curOf, gfrOf, hgfr, if_true]
  split_ifs <;> omega

/-! Facts about `renewList`. -/

theorem renewList_length (h cost fee : Nat) (ehOf : Contract → Nat)
    (l : List Contract) (n : Nat) :
    (renewList h cost fee ehOf l n).length = l.length := by
  induction l generalizing n with
  | nil => rfl
  | cons c rest ih => simpa [renewList] using ih (n + 1)

theorem renewList_mem {h cost fee : Nat} {ehOf : Contract → Nat}
    {l : List Contract} {n : Nat} {x : Contract}
    (hx : x ∈ renewList h cost fee ehOf l n) :
    ∃ c ∈ l, ∃ m, n ≤ m ∧ m < n + l.length ∧
      x = renewedContract c m h (ehOf c) cost fee := by
  induction l generalizing n with
  | nil => cases hx
  | cons c rest ih =>
    rcases List.mem_cons.mp hx with hx | hx
    · refine ⟨c, List.mem_cons_self c rest, n, Nat.le_refl n, ?_, hx⟩
      simp
    · rcases ih hx with ⟨c', hc', m, hm, hmub, hxeq⟩
      refine ⟨c', List.mem_cons_of_mem c hc', m, Nat.le_of_succ_le hm, ?_, hxeq⟩
      simp only [List.length_cons] at hmub ⊢
      omega

theorem renewList_map_id (h cost fee : Nat) (ehOf : Contract → Nat)
    (l : List Contract) (n : Nat) :
    (renewList h cost fee ehOf l n).map Contract.id = List.range' n l.length := by
  induction l generalizing n with
  | nil => rfl
  | cons c rest ih =>
    simp only [renewList, List.map_cons, List.length_cons, List.range'_succ]
    exact congrArg (n :: ·) (ih (n + 1))

theorem renewList_getD (h cost fee : Nat) (ehOf : Contract → Nat)
    (d₀ : Contract) :
    ∀ (l : List Contract) (n i : Nat), i < l.length →
      (renewList h cost fee ehOf l n).getD i d₀ =
        renewedContract (l.getD i d₀) (n + i) h (ehOf (l.getD i d₀)) cost fee := by
  intro l
  induction l with
  | nil => intro n i hi; cases hi
  | cons c rest ih =>
    intro n i hi
    cases i with
    | zero => rfl
    | succ j =>
      have hj : j < rest.length := Nat.lt_of_succ_lt_succ hi
      have := ih (n + 1) j hj
      simpa [renewList, Nat.add_assoc, Nat.add_comm 1 j] using this

theorem sumMap_ledgerActC_renewList (h cost fee : Nat) (ehOf : Contract → Nat)
    (l : List Contract) (n : Nat) :
    sumMap ledgerActC (renewList h cost fee ehOf l n) = l.length * cost := by
  induction l generalizing n with
  | nil => simp [renewList, sumMap]
  | cons c rest ih =>
    rw [renewList, sumMap_cons, ih (n + 1)]
    simp [ledgerActC, gfrOf, renewedContract, List.length_cons, Nat.succ_mul]
    omega

theorem sumMap_gfrAlloc_renewList (h cost fee : Nat) (ehOf : Contract → Nat)
    (l : List Contract) (n : Nat) :
    sumMap (gfrOf Contract.totalCost) (renewList h cost fee ehOf l n) =
      l.length * cost :=
  sumMap_ledgerActC_renewList h cost fee ehOf l n

/-- Extracting one element of a concatenation as a permutation, at the level
of mapped ids. -/
theorem ids_extract (f : Contract → Nat) (l₁ l₂ rest : List Contract) (c : Contract) :
    List.Perm (((l₁ ++ c :: l₂) ++ rest).map f)
      (f c :: ((l₁ ++ l₂) ++ rest).map f) := by
  have h1 : (l₁ ++ c :: l₂) ++ rest = l₁ ++ c :: (l₂ ++ rest) := by
    simp [List.append_assoc]
  have h2 : (l₁ ++ l₂) ++ rest = l₁ ++ (l₂ ++ rest) := by
    simp [List.append_assoc]
  rw [h1, h2]
  simp only [List.map_append, List.map_cons]
  exact List.perm_middle

theorem mem_allContracts {s : RenterState} {x : Contract} :
    x ∈ allContracts s ↔ x ∈ s.active ∨ x ∈ s.inactive ∨ x ∈ s.expired := by
  simp [allContracts, List.mem_append, or_assoc]

theorem conserved_fresh {n hk h ps per cost fee : Nat} (hfee : fee ≤ cost) :
    conserved (freshContract n hk h ps per cost fee) := by
  simp [conserved, freshContract]
  omega

theorem conserved_renewed {c : Contract} {n h eh cost fee : Nat}
    (hfee : fee ≤ cost) : conserved (renewedContract c n h eh cost fee) := by
  simp [conserved, renewedContract]
  omega

theorem conserved_addUpload {c : Contract} {a : Nat} (ha : a ≤ c.renterFunds)
    (hc : conserved c) : conserved (addUpload a c) := by
  simp [conserved, addUpload] at hc ⊢
  omega

theorem conserved_addDownload {c : Contract} {a : Nat} (ha : a ≤ c.renterFunds)
    (hc : conserved c) : conserved (addDownload a c) := by
  simp [conserved, addDownload] at hc ⊢
  omega

theorem conserved_addStorage {c : Contract} {a : Nat} (ha : a ≤ c.renterFunds)
    (hc : conserved c) : conserved (addStorage a c) := by
  simp [conserved, addStorage] at hc ⊢
  omega

theorem conserved_flagsOff {c : Contract} (hc : conserved c) :
    conserved { c with goodForRenew := false, goodForUpload := false } := hc

/-- Invariant preservation for contract formation. -/
theorem inv_form (s : RenterState) (hk cost fee : Nat) (hI : Inv s)
    (hroom : s.active.length < s.allowance.hosts)
    (hfee : fee ≤ cost)
    (hwallet : cost ≤ s.walletConfirmed)
    (halloc : fmAlloc s + cost ≤ s.allowance.funds) :
    Inv { s with
          active :=
            freshContract s.nextId hk s.height s.currentPeriodStart
              s.allowance.period cost fee :: s.active
          nextId := s.nextId + 1
          walletConfirmed := s.walletConfirmed - cost } := by
  obtain ⟨hcons, halc, hled, hidlt, hnd, hcnt⟩ := hI
  set c₀ := freshContract s.nextId hk s.height s.currentPeriodStart
    s.allowance.period cost fee with hc₀
  have hgc₀ : gfrOf Contract.totalCost c₀ = cost := by
    simp [gfrOf, hc₀, freshContract]
  have hid₀ : c₀.id = s.nextId := by simp [hc₀, freshContract]
  constructor
  · intro x hx
    rw [mem_allContracts] at hx
    dsimp only at hx
    rcases hx with hx | hx | hx
    · rcases List.mem_cons.mp hx with rfl | hx
      · exact conserved_fresh hfee
      · exact hcons x (mem_allContracts.mpr (Or.inl hx))
    · exact hcons x (mem_allContracts.mpr (Or.inr (Or.inl hx)))
    · exact hcons x (mem_allContracts.mpr (Or.inr (Or.inr hx)))
  · unfold fmAlloc oldContracts at halloc ⊢
    dsimp only
    rw [sumMap_cons, hgc₀]
    omega
  · unfold ledgerTotal fmAlloc fmWithheld fmPrev oldContracts at hled ⊢
    dsimp only
    rw [sumMap_cons, hgc₀]
    omega
  · intro x hx
    rw [mem_allContracts] at hx
    dsimp only at hx ⊢
    rcases hx with hx | hx | hx
    · rcases List.mem_cons.mp hx with rfl | hx
      · omega
      · exact Nat.lt_succ_of_lt (hidlt x (mem_allContracts.mpr (Or.inl hx)))
    · exact Nat.lt_succ_of_lt (hidlt x (mem_allContracts.mpr (Or.inr (Or.inl hx))))
    · exact Nat.lt_succ_of_lt (hidlt x (mem_allContracts.mpr (Or.inr (Or.inr hx))))
  · show ((c₀ :: allContracts s).map Contract.id).Nodup
    rw [List.map_cons, List.nodup_cons]
    refine ⟨?_, hnd⟩
    intro hmem
    rcases List.mem_map.mp hmem with ⟨x, hx, hxid⟩
    have := hidlt x hx
    omega
  · intro h
    dsimp only at h ⊢
    exact hcnt h

/-- Invariant preservation for any in-place update of one active contract
that keeps its identity, cost, renew flag, start height and conservation:
this covers the three spending steps. -/
theorem inv_activeUpdate (s : RenterState) (l₁ l₂ : List Contract)
    (c c' : Contract) (hsplit : s.active = l₁ ++ c :: l₂)
    (hcc' : conserved c → conserved c')
    (htc : c'.totalCost = c.totalCost)
    (hgf : c'.goodForRenew = c.goodForRenew)
    (hid : c'.id = c.id)
    (hI : Inv s) : Inv { s with active := l₁ ++ c' :: l₂ } := by
  obtain ⟨hcons, halc, hled, hidlt, hnd, hcnt⟩ := hI
  have hcmem : c ∈ s.active := by
    rw [hsplit]
    exact List.mem_append_right l₁ (List.mem_cons_self c l₂)
  have hg : gfrOf Contract.totalCost c' = gfrOf Contract.totalCost c := by
    unfold gfrOf
    rw [htc, hgf]
  constructor
  · intro x hx
    rw [mem_allContracts] at hx
    dsimp only at hx
    rcases hx with hx | hx | hx
    · rcases List.mem_append.mp hx with hx | hx
      · exact hcons x (mem_allContracts.mpr (Or.inl (hsplit ▸ List.mem_append_left _ hx)))
      · rcases List.mem_cons.mp hx with rfl | hx
        · exact hcc' (hcons c (mem_allContracts.mpr (Or.inl hcmem)))
        · exact hcons x (mem_allContracts.mpr
            (Or.inl (hsplit ▸ List.mem_append_right l₁ (List.mem_cons_of_mem c hx))))
    · exact hcons x (mem_allContracts.mpr (Or.inr (Or.inl hx)))
    · exact hcons x (mem_allContracts.mpr (Or.inr (Or.inr hx)))
  · unfold fmAlloc oldContracts at halc ⊢
    dsimp only
    rw [hsplit] at halc
    simp only [sumMap_append, sumMap_cons] at halc ⊢
    rw [hg]
    omega
  · unfold ledgerTotal fmAlloc fmWithheld fmPrev oldContracts at hled ⊢
    dsimp only
    rw [hsplit] at hled
    simp only [sumMap_append, sumMap_cons] at hled ⊢
    rw [hg]
    omega
  · intro x hx
    rw [mem_allContracts] at hx
    dsimp only at hx ⊢
    rcases hx with hx | hx | hx
    · rcases List.mem_append.mp hx with hx | hx
      · exact hidlt x (mem_allContracts.mpr (Or.inl (hsplit ▸ List.mem_append_left _ hx)))
      · rcases List.mem_cons.mp hx with rfl | hx
        · rw [hid]
          exact hidlt c (mem_allContracts.mpr (Or.inl hcmem))
        · exact hidlt x (mem_allContracts.mpr
            (Or.inl (hsplit ▸ List.mem_append_right l₁ (List.mem_cons_of_mem c hx))))
    · exact hidlt x (mem_allContracts.mpr (Or.inr (Or.inl hx)))
    · exact hidlt x (mem_allContracts.mpr (Or.inr (Or.inr hx)))
  · have hsame : (allContracts { s with active := l₁ ++ c' :: l₂ }).map Contract.id =
        (allContracts s).map Contract.id := by
      unfold allContracts
      dsimp only
      rw [hsplit]
      simp [List.map_append, hid]
    rw [hsame]
    exact hnd
  · intro h
    dsimp only at h ⊢
    exact hcnt h

/-- Invariant preservation for a full renewal cycle (window- or
spending-triggered: the trigger does not matter for the invariants, only
that every renewed contract was `goodForRenew` and not yet past its
maturity unless it is a current-period contract). -/
theorem inv_renew (s : RenterState) (cost fee : Nat) (ehOf : Contract → Nat)
    (hn : s.active.length = s.allowance.hosts)
    (hall : ∀ c ∈ s.active, c.goodForRenew = true ∧
      (s.currentPeriodStart ≤ c.startHeight ∨
        s.height < maturity s.windowSize s.maturityDelay c))
    (hfee : fee ≤ cost)
    (hwallet : s.allowance.hosts * cost ≤ s.walletConfirmed)
    (halloc : fmAlloc s + s.allowance.hosts * cost ≤ s.allowance.funds)
    (hI : Inv s) :
    Inv { s with
          active := renewList s.height cost fee ehOf s.active s.nextId
          inactive := s.active ++ s.inactive
          nextId := s.nextId + s.active.length
          numRenewals := s.numRenewals + 1
          walletConfirmed := s.walletConfirmed - s.allowance.hosts * cost } := by
  obtain ⟨hcons, halc, hled, hidlt, hnd, hcnt⟩ := hI
  have hActLedger :
      sumMap (ledgerOldC s.currentPeriodStart s.windowSize s.maturityDelay s.height)
          s.active = sumMap (gfrOf Contract.totalCost) s.active := by
    rw [← sumMap_ledgerActC]
    refine sumMap_congr fun c hc => ?_
    have h1 := (hall c hc).1
    have h2 := (hall c hc).2
    have hcsv := hcons c (mem_allContracts.mpr (Or.inl hc))
    rw [ledgerOldC_eq_totalCost hcsv h2]
    simp [ledgerActC, gfrOf, h1]
  have hCurLe :
      sumMap (curOf s.currentPeriodStart Contract.totalCost) s.active ≤
        sumMap (gfrOf Contract.totalCost) s.active :=
    sumMap_le fun c hc => curOf_le_gfrOf (hall c hc).1 Contract.totalCost _
  constructor
  · intro x hx
    rw [mem_allContracts] at hx
    dsimp only at hx
    rcases hx with hx | hx | hx
    · rcases renewList_mem hx with ⟨c, _, m, _, _, rfl⟩
      exact conserved_renewed hfee
    · rcases List.mem_append.mp hx with hx | hx
      · exact hcons x (mem_allContracts.mpr (Or.inl hx))
      · exact hcons x (mem_allContracts.mpr (Or.inr (Or.inl hx)))
    · exact hcons x (mem_allContracts.mpr (Or.inr (Or.inr hx)))
  · unfold fmAlloc oldContracts at halloc ⊢
    dsimp only
    rw [sumMap_gfrAlloc_renewList, hn]
    simp only [sumMap_append] at halloc ⊢
    omega
  · unfold ledgerTotal fmAlloc fmWithheld fmPrev oldContracts at hled ⊢
    dsimp only
    rw [sumMap_gfrAlloc_renewList, hn]
    simp only [sumMap_append] at hled ⊢
    have hsplitA := sumMap_ledgerOldC s.currentPeriodStart s.windowSize
      s.maturityDelay s.height s.active
    rw [hActLedger] at hsplitA
    omega
  · intro x hx
    rw [mem_allContracts] at hx
    dsimp only at hx ⊢
    rcases hx with hx | hx | hx
    · rcases renewList_mem hx with ⟨c, _, m, hm1, hm2, rfl⟩
      simpa [renewedContract] using hm2
    · rcases List.mem_append.mp hx with hx | hx
      · exact Nat.lt_of_lt_of_le (hidlt x (mem_allContracts.mpr (Or.inl hx)))
          (Nat.le_add_right _ _)
      · exact Nat.lt_of_lt_of_le (hidlt x (mem_allContracts.mpr (Or.inr (Or.inl hx))))
          (Nat.le_add_right _ _)
    · exact Nat.lt_of_lt_of_le (hidlt x (mem_allContracts.mpr (Or.inr (Or.inr hx))))
        (Nat.le_add_right _ _)
  · show (((renewList s.height cost fee ehOf s.active s.nextId ++
      (s.active ++ s.inactive)) ++ s.expired).map Contract.id).Nodup
    rw [List.append_assoc, List.map_append, renewList_map_id]
    have hrest : ((s.active ++ s.inactive) ++ s.expired).map Contract.id =
        (allContracts s).map Contract.id := by
      unfold allContracts
      simp [List.append_assoc]
    rw [hrest]
    refine List.Nodup.append (List.nodup_range' _ _) hnd ?_
    intro x hx₁ hx₂
    have hge : s.nextId ≤ x := (List.mem_range'_1.mp hx₁).1
    rcases List.mem_map.mp hx₂ with ⟨y, hy, rfl⟩
    exact Nat.lt_irrefl _ (Nat.lt_of_lt_of_le (hidlt y hy) hge)
  · intro h
    dsimp only at h ⊢
    have h2 := hcnt h
    simp only [List.length_append]
    rw [Nat.mul_succ]
    omega

theorem map_perm_middle (f : Contract → Nat) (X Y : List Contract) (c : Contract) :
    List.Perm ((X ++ c :: Y).map f) (f c :: (X ++ Y).map f) := by
  simp only [List.map_append, List.map_cons]
  exact List.perm_middle

/-- Invariant preservation when a contract that failed renewal too often is
retired: it moves from Active to Inactive with both flags cleared
(spec §4.1 transition (c), §4.2 item 3). -/
theorem inv_failRenew (s : RenterState) (l₁ l₂ : List Contract) (c : Contract)
    (hsplit : s.active = l₁ ++ c :: l₂)
    (hgfr : c.goodForRenew = true)
    (hmat : s.currentPeriodStart ≤ c.startHeight ∨
      s.height < maturity s.windowSize s.maturityDelay c)
    (hI : Inv s) :
    Inv { s with
          active := l₁ ++ l₂
          inactive := { c with goodForRenew := false, goodForUpload := false } :: s.inactive
          contractsLost := true } := by
  obtain ⟨hcons, halc, hled, hidlt, hnd, hcnt⟩ := hI
  set c' : Contract := { c with goodForRenew := false, goodForUpload := false }
    with hc'
  have hcmem : c ∈ s.active := by
    rw [hsplit]
    exact List.mem_append_right l₁ (List.mem_cons_self c l₂)
  have hcsv : conserved c := hcons c (mem_allContracts.mpr (Or.inl hcmem))
  have hgc : gfrOf Contract.totalCost c = c.totalCost := by simp [gfrOf, hgfr]
  have hledc : curOf s.currentPeriodStart Contract.totalCost c' +
      (withheldOf s.currentPeriodStart s.windowSize s.maturityDelay s.height c' +
        prevOf s.currentPeriodStart c') = c.totalCost := by
    have h := @ledgerOldC_eq_totalCost s.currentPeriodStart s.windowSize
      s.maturityDelay s.height c' hcsv hmat
    unfold ledgerOldC at h
    exact h
  have hcurc : curOf s.currentPeriodStart Contract.totalCost c' ≤ c.totalCost := by
    unfold curOf
    split_ifs <;> simp [hc']
  constructor
  · intro x hx
    rw [mem_allContracts] at hx
    dsimp only at hx
    rcases hx with hx | hx | hx
    · rcases List.mem_append.mp hx with hx | hx
      · exact hcons x (mem_allContracts.mpr (Or.inl (hsplit ▸ List.mem_append_left _ hx)))
      · exact hcons x (mem_allContracts.mpr
          (Or.inl (hsplit ▸ List.mem_append_right l₁ (List.mem_cons_of_mem c hx))))
    · rcases List.mem_cons.mp hx with rfl | hx
      · exact conserved_flagsOff hcsv
      · exact hcons x (mem_allContracts.mpr (Or.inr (Or.inl hx)))
    · exact hcons x (mem_allContracts.mpr (Or.inr (Or.inr hx)))
  · unfold fmAlloc oldContracts at halc ⊢
    dsimp only
    rw [hsplit] at halc
    simp only [sumMap_append, sumMap_cons, List.cons_append] at halc ⊢
    rw [hgc] at halc
    omega
  · unfold ledgerTotal fmAlloc fmWithheld fmPrev oldContracts at hled ⊢
    dsimp only
    rw [hsplit] at hled
    simp only [sumMap_append, sumMap_cons, List.cons_append] at hled ⊢
    rw [hgc] at hled
    omega
  · intro x hx
    rw [mem_allContracts] at hx
    dsimp only at hx ⊢
    rcases hx with hx | hx | hx
    · rcases List.mem_append.mp hx with hx | hx
      · exact hidlt x (mem_allContracts.mpr (Or.inl (hsplit ▸ List.mem_append_left _ hx)))
      · exact hidlt x (mem_allContracts.mpr
          (Or.inl (hsplit ▸ List.mem_append_right l₁ (List.mem_cons_of_mem c hx))))
    · rcases List.mem_cons.mp hx with rfl | hx
      · exact hidlt c (mem_allContracts.mpr (Or.inl hcmem))
      · exact hidlt x (mem_allContracts.mpr (Or.inr (Or.inl hx)))
    · exact hidlt x (mem_allContracts.mpr (Or.inr (Or.inr hx)))
  · have horig : (allContracts s).map Contract.id =
        (l₁.map Contract.id) ++ (c.id :: (l₂.map Contract.id ++
          (s.inactive.map Contract.id ++ s.expired.map Contract.id))) := by
      unfold allContracts
      rw [hsplit]
      simp [List.map_append, List.append_assoc]
    have hnew : (allContracts { s with
        active := l₁ ++ l₂
        inactive := c' :: s.inactive
        contractsLost := true }).map Contract.id =
        (l₁.map Contract.id) ++ (l₂.map Contract.id ++
          (c.id :: (s.inactive.map Contract.id ++ s.expired.map Contract.id))) := by
      unfold allContracts
      dsimp only
      simp [List.map_append, List.append_assoc, hc']
    rw [hnew]
    rw [horig] at hnd
    have hp : List.Perm
        (l₂.map Contract.id ++ (c.id :: (s.inactive.map Contract.id ++
          s.expired.map Contract.id)))
        (c.id :: (l₂.map Contract.id ++ (s.inactive.map Contract.id ++
          s.expired.map Contract.id))) := List.perm_middle
    exact ((hp.symm.append_left (l₁.map Contract.id))).nodup hnd
  · intro h
    dsimp only at h
    cases h

/-- Invariant preservation when an inactive contract past its maturity
window is reclassified as expired (spec §4.1, Inactive to Expired). -/
theorem inv_expire (s : RenterState) (l₁ l₂ : List Contract) (c : Contract)
    (hsplit : s.inactive = l₁ ++ c :: l₂)
    (hmat : maturity s.windowSize s.maturityDelay c < s.height)
    (hI : Inv s) :
    Inv { s with inactive := l₁ ++ l₂, expired := c :: s.expired } := by
  obtain ⟨hcons, halc, hled, hidlt, hnd, hcnt⟩ := hI
  have hcmem : c ∈ s.inactive := by
    rw [hsplit]
    exact List.mem_append_right l₁ (List.mem_cons_self c l₂)
  constructor
  · intro x hx
    rw [mem_allContracts] at hx
    dsimp only at hx
    rcases hx with hx | hx | hx
    · exact hcons x (mem_allContracts.mpr (Or.inl hx))
    · rcases List.mem_append.mp hx with hx | hx
      · exact hcons x (mem_allContracts.mpr
          (Or.inr (Or.inl (hsplit ▸ List.mem_append_left _ hx))))
      · exact hcons x (mem_allContracts.mpr
          (Or.inr (Or.inl (hsplit ▸ List.mem_append_right l₁ (List.mem_cons_of_mem c hx)))))
    · rcases List.mem_cons.mp hx with rfl | hx
      · exact hcons x (mem_allContracts.mpr (Or.inr (Or.inl hcmem)))
      · exact hcons x (mem_allContracts.mpr (Or.inr (Or.inr hx)))
  · unfold fmAlloc oldContracts at halc ⊢
    dsimp only
    rw [hsplit] at halc
    simp only [sumMap_append, sumMap_cons, List.cons_append] at halc ⊢
    omega
  · unfold ledgerTotal fmAlloc fmWithheld fmPrev oldContracts at hled ⊢
    dsimp only
    rw [hsplit] at hled
    simp only [sumMap_append, sumMap_cons, List.cons_append] at hled ⊢
    omega
  · intro x hx
    rw [mem_allContracts] at hx
    dsimp only at hx ⊢
    rcases hx with hx | hx | hx
    · exact hidlt x (mem_allContracts.mpr (Or.inl hx))
    · rcases List.mem_append.mp hx with hx | hx
      · exact hidlt x (mem_allContracts.mpr
          (Or.inr (Or.inl (hsplit ▸ List.mem_append_left _ hx))))
      · exact hidlt x (mem_allContracts.mpr
          (Or.inr (Or.inl (hsplit ▸ List.mem_append_right l₁ (List.mem_cons_of_mem c hx)))))
    · rcases List.mem_cons.mp hx with rfl | hx
      · exact hidlt x (mem_allContracts.mpr (Or.inr (Or.inl hcmem)))
      · exact hidlt x (mem_allContracts.mpr (Or.inr (Or.inr hx)))
  · have horig : (allContracts s).map Contract.id =
        ((s.active.map Contract.id ++ l₁.map Contract.id)) ++
          (c.id :: (l₂.map Contract.id ++ s.expired.map Contract.id)) := by
      unfold allContracts
      rw [hsplit]
      simp [List.map_append, List.append_assoc]
    have hnew : (allContracts { s with
        inactive := l₁ ++ l₂, expired := c :: s.expired }).map Contract.id =
        ((s.active.map Contract.id ++ l₁.map Contract.id)) ++
          (l₂.map Contract.id ++ (c.id :: s.expired.map Contract.id)) := by
      unfold allContracts
      dsimp only
      simp [List.map_append, List.append_assoc]
    rw [hnew]
    rw [horig] at hnd
    have hp : List.Perm
        (l₂.map Contract.id ++ (c.id :: s.expired.map Contract.id))
        (c.id :: (l₂.map Contract.id ++ s.expired.map Contract.id)) :=
      List.perm_middle
    exact ((hp.symm.append_left _)).nodup hnd
  · intro h
    dsimp only at h ⊢
    have h2 := hcnt h
    rw [hsplit] at h2
    simp only [List.length_append, List.length_cons] at h2 ⊢
    omega

theorem mem_oldContracts {s : RenterState} {x : Contract}
    (hx : x ∈ oldContracts s) : x ∈ allContracts s := by
  rcases List.mem_append.mp hx with hx | hx
  · exact mem_allContracts.mpr (Or.inr (Or.inl hx))
  · exact mem_allContracts.mpr (Or.inr (Or.inr hx))

/-- Releasing the withheld funds of contracts whose maturity height is
reached is exactly the difference between the withheld sums at consecutive
heights. -/
theorem withheld_advance (ps ws md h : Nat) (c : Contract) :
    withheldOf ps ws md (h + 1) c + maturedNow ps ws md h c =
      withheldOf ps ws md h c := by
  unfold withheldOf maturedNow
  split_ifs <;> omega

/-- Invariant preservation for a block-height advance: withheld funds whose
maturity height is reached return to the confirmed wallet balance. -/
theorem inv_advance (s : RenterState) (hI : Inv s) :
    Inv { s with
          height := s.height + 1
          walletConfirmed := s.walletConfirmed +
            sumMap (maturedNow s.currentPeriodStart s.windowSize s.maturityDelay s.height)
              (oldContracts s) } := by
  obtain ⟨hcons, halc, hled, hidlt, hnd, hcnt⟩ := hI
  have hW : sumMap (withheldOf s.currentPeriodStart s.windowSize s.maturityDelay
        (s.height + 1)) (oldContracts s) +
      sumMap (maturedNow s.currentPeriodStart s.windowSize s.maturityDelay s.height)
        (oldContracts s) =
      sumMap (withheldOf s.currentPeriodStart s.windowSize s.maturityDelay s.height)
        (oldContracts s) := by
    rw [← sumMap_add]
    exact sumMap_congr fun c _ => withheld_advance _ _ _ _ c
  constructor
  · intro x hx
    exact hcons x hx
  · exact halc
  · unfold ledgerTotal fmAlloc fmWithheld fmPrev oldContracts at hled ⊢
    dsimp only
    unfold oldContracts at hW
    omega
  · intro x hx
    exact hidlt x hx
  · exact hnd
  · intro h
    exact hcnt h

/-- Invariant preservation for the start of a new funding period
(spec §4.2: the current period advances by one allowance period once the
chain has moved past it; contracts of the closing period are still within
their maturity window). -/
theorem inv_newPeriod (s : RenterState)
    (hp : s.currentPeriodStart + s.allowance.period ≤ s.height)
    (hold : ∀ c ∈ oldContracts s, s.currentPeriodStart ≤ c.startHeight →
      c.startHeight < s.currentPeriodStart + s.allowance.period →
      s.height < maturity s.windowSize s.maturityDelay c)
    (hI : Inv s) :
    Inv { s with currentPeriodStart := s.currentPeriodStart + s.allowance.period } := by
  obtain ⟨hcons, halc, hled, hidlt, hnd, hcnt⟩ := hI
  have hcurm : ∀ c, curOf (s.currentPeriodStart + s.allowance.period)
      Contract.totalCost c ≤ curOf s.currentPeriodStart Contract.totalCost c := by
    intro c
    unfold curOf
    split_ifs <;> omega
  have hpt : ∀ c ∈ oldContracts s,
      ledgerOldC (s.currentPeriodStart + s.allowance.period) s.windowSize
        s.maturityDelay s.height c =
      ledgerOldC s.currentPeriodStart s.windowSize s.maturityDelay s.height c := by
    intro c hc
    have hcsv := hcons c (mem_oldContracts hc)
    unfold conserved at hcsv
    by_cases h1 : s.currentPeriodStart + s.allowance.period ≤ c.startHeight
    · have h0 : s.currentPeriodStart ≤ c.startHeight := by omega
      simp [ledgerOldC, curOf, withheldOf, prevOf, h1, h0]
    · by_cases h2 : s.currentPeriodStart ≤ c.startHeight
      · have h4 := hold c hc h2 (by omega)
        simp only [ledgerOldC, curOf, withheldOf, prevOf, spendOf,
          if_pos h2, if_neg h1, if_pos h4]
        omega
      · have h2' : ¬ s.currentPeriodStart + s.allowance.period ≤ c.startHeight := by
          omega
        simp [ledgerOldC, curOf, withheldOf, prevOf, h2, h2']
  constructor
  · intro x hx
    exact hcons x hx
  · unfold fmAlloc oldContracts at halc ⊢
    dsimp only
    have hle : sumMap (curOf (s.currentPeriodStart + s.allowance.period)
          Contract.totalCost) (s.inactive ++ s.expired) ≤
        sumMap (curOf s.currentPeriodStart Contract.totalCost)
          (s.inactive ++ s.expired) :=
      sumMap_le fun c _ => hcurm c
    omega
  · unfold ledgerTotal at hled ⊢
    dsimp only
    have t := fmTriple s
    have t' : fmAlloc { s with currentPeriodStart :=
          s.currentPeriodStart + s.allowance.period } +
        fmWithheld { s with currentPeriodStart :=
          s.currentPeriodStart + s.allowance.period } +
        fmPrev { s with currentPeriodStart :=
          s.currentPeriodStart + s.allowance.period } =
        sumMap (ledgerOldC (s.currentPeriodStart + s.allowance.period) s.windowSize
          s.maturityDelay s.height) (oldContracts s) + sumMap ledgerActC s.active := by
      exact fmTriple _
    rw [t'] at *
    rw [sumMap_congr hpt]
    rw [t] at hled
    exact hled
  · intro x hx
    exact hidlt x hx
  · exact hnd
  · intro h
    exact hcnt h

/-- Every step of the machine preserves the invariant. -/
theorem inv_step {s : RenterState} {k : StepKind} {s' : RenterState}
    (hI : Inv s) (hstep : Step s k s') : Inv s' := by
  cases hstep with
  | form hk cost fee hroom hfee hwallet halloc hheight =>
      exact inv_form s hk cost fee hI hroom hfee hwallet halloc
  | spendUpload l₁ l₂ c a hsplit ha =>
      exact inv_activeUpdate s l₁ l₂ c (addUpload a c) hsplit
        (conserved_addUpload ha) rfl rfl rfl hI
  | spendDownload l₁ l₂ c a hsplit ha =>
      exact inv_activeUpdate s l₁ l₂ c (addDownload a c) hsplit
        (conserved_addDownload ha) rfl rfl rfl hI
  | spendStorage l₁ l₂ c a hsplit ha =>
      exact inv_activeUpdate s l₁ l₂ c (addStorage a c) hsplit
        (conserved_addStorage ha) rfl rfl rfl hI
  | renewWindow cost fee hn hall hfee hwallet halloc hheight =>
      exact inv_renew s cost fee _ hn
        (fun c hc => ⟨(hall c hc).1, (hall c hc).2.2⟩) hfee hwallet halloc hI
  | renewSpending cost fee hn hall hfee hwallet halloc hheight =>
      exact inv_renew s cost fee _ hn
        (fun c hc => ⟨(hall c hc).1, (hall c hc).2.2⟩) hfee hwallet halloc hI
  | failRenew l₁ l₂ c hsplit hgfr hmat =>
      exact inv_failRenew s l₁ l₂ c hsplit hgfr hmat hI
  | expire l₁ l₂ c hsplit hmat =>
      exact inv_expire s l₁ l₂ c hsplit hmat hI
  | advance =>
      exact inv_advance s hI
  | newPeriod hp hold =>
      exact inv_newPeriod s hp hold hI

/-- The initial state satisfies the invariant. -/
theorem inv_init (a : Allowance) (ws md bal h0 : Nat) :
    Inv (initialState a ws md bal h0) := by
  constructor
  · intro x hx
    cases hx
  · show fmAlloc (initialState a ws md bal h0) ≤ a.funds
    simp [fmAlloc, oldContracts, initialState, sumMap]
  · show ledgerTotal (initialState a ws md bal h0) = bal
    simp [ledgerTotal, fmAlloc, fmWithheld, fmPrev, oldContracts, initialState, sumMap]
  · intro x hx
    cases hx
  · show (List.map Contract.id []).Nodup
    simp
  · intro _
    simp [initialState]

/-- Every reachable state of the contract machine satisfies the invariant. -/
theorem reachable_inv {s : RenterState} (h : Reachable s) : Inv s := by
  induction h with
  | init a ws md bal h0 => exact inv_init a ws md bal h0
  | step _ hstep ih => exact inv_step ih hstep

/-- C1: for every reachable state while funds are tracked for the current
period, the renter's financial metrics satisfy `contractFees +
uploadSpending + downloadSpending + storageSpending + unspent ==
allowance.funds`, the check of `checkContractVsReportedSpending`
(src/unnamed/part_000:1626-1639). -/
theorem C1_metrics_reconciliation {s : RenterState} (h : Reachable s) :
    (financialMetrics s).contractFees + (financialMetrics s).uploadSpending +
      (financialMetrics s).downloadSpending + (financialMetrics s).storageSpending +
      (financialMetrics s).unspent = s.allowance.funds := by
  have hI := reachable_inv h
  have halc := hI.alloc
  have hOld : ∀ c ∈ oldContracts s,
      curOf s.currentPeriodStart Contract.fees c +
        curOf s.currentPeriodStart Contract.uploadSpending c +
        curOf s.currentPeriodStart Contract.downloadSpending c +
        curOf s.currentPeriodStart Contract.storageSpending c ≤
      curOf s.currentPeriodStart Contract.totalCost c := by
    intro c hc
    have hcsv := hI.cons c (mem_oldContracts hc)
    unfold conserved at hcsv
    unfold curOf
    split_ifs <;> omega
  have hAct : ∀ c ∈ s.active,
      gfrOf Contract.fees c + gfrOf Contract.uploadSpending c +
        gfrOf Contract.downloadSpending c + gfrOf Contract.storageSpending c ≤
      gfrOf Contract.totalCost c := by
    intro c hc
    have hcsv := hI.cons c (mem_allContracts.mpr (Or.inl hc))
    unfold conserved at hcsv
    unfold gfrOf
    split_ifs <;> omega
  have hOldSum := sumMap_le hOld
  have hActSum := sumMap_le hAct
  simp only [sumMap_add] at hOldSum hActSum
  show fmFees s + fmUp s + fmDown s + fmStore s + fmUnspent s = s.allowance.funds
  unfold fmUnspent fmSpent
  unfold fmFees fmUp fmDown fmStore fmAlloc at *
  omega

/-- C2: for every reachable state, the spending reported by the financial
metrics reconciles with the confirmed wallet balance:
`initialWalletBalance - wallet.confirmedBalance == totalAllocated +
withheldFunds + previousSpending`, the check of `checkBalanceVsSpending`
(src/unnamed/part_000:1511-1545). -/
theorem C2_balance_vs_spending {s : RenterState} (h : Reachable s) :
    s.initialWallet - s.walletConfirmed =
      (financialMetrics s).totalAllocated + (financialMetrics s).withheldFunds +
        (financialMetrics s).previousSpending := by
  have hI := reachable_inv h
  have hl := hI.ledger
  unfold ledgerTotal at hl
  show s.initialWallet - s.walletConfirmed = fmAlloc s + fmWithheld s + fmPrev s
  omega

/-- The all-zero contract, used as the default for position lookups. -/
def cDefault : Contract := freshContract 0 0 0 0 0 0 0

/-- C3: every contract produced by a window-triggered renewal has zero
upload spending, zero download spending, the host key of its predecessor,
and an id different from its predecessor's, while the predecessor becomes
Inactive (spec §4.2 item 4; checks of `checkRenewedContracts` and
`checkContracts`, src/unnamed/part_000:1577-1606). -/
theorem C3_window_renewal_contracts {s s' : RenterState} {cost fee : Nat}
    (hreach : Reachable s)
    (hstep : Step s (StepKind.renewWindow cost fee) s')
    (i : Nat) (hi : i < s.active.length) :
    (s'.active.getD i cDefault).uploadSpending = 0 ∧
    (s'.active.getD i cDefault).downloadSpending = 0 ∧
    (s'.active.getD i cDefault).hostKey = (s.active.getD i cDefault).hostKey ∧
    (s'.active.getD i cDefault).id ≠ (s.active.getD i cDefault).id ∧
    s.active.getD i cDefault ∈ s'.inactive := by
  have hI := reachable_inv hreach
  have hmem : s.active.getD i cDefault ∈ s.active := by
    rw [List.getD_eq_getElem?_getD, List.getElem?_eq_getElem hi]
    exact List.getElem_mem _
  have hlt := hI.idlt _ (mem_allContracts.mpr (Or.inl hmem))
  cases hstep with
  | renewWindow hn hall hfee hwallet halloc hheight =>
    refine ⟨?_, ?_, ?_, ?_, ?_⟩
    · dsimp only
      rw [renewList_getD s.height cost fee _ cDefault s.active s.nextId i hi]
      rfl
    · dsimp only
      rw [renewList_getD s.height cost fee _ cDefault s.active s.nextId i hi]
      rfl
    · dsimp only
      rw [renewList_getD s.height cost fee _ cDefault s.active s.nextId i hi]
      rfl
    · dsimp only
      rw [renewList_getD s.height cost fee _ cDefault s.active s.nextId i hi]
      show s.nextId + i ≠ (s.active.getD i cDefault).id
      omega
    · dsimp only
      exact List.mem_append_left _ hmem

/-- C4: while no contracts have been lost to replacement, the number of
Inactive plus Expired contracts is `hosts * numRenewalsCompleted`, and no
contract id appears both among the old contracts and among the active ones
(checks of `checkContracts`, src/unnamed/part_000:1550-1590). -/
theorem C4_old_contract_accounting {s : RenterState} (h : Reachable s)
    (hlost : s.contractsLost = false) :
    s.inactive.length + s.expired.length = s.allowance.hosts * s.numRenewals ∧
    ∀ c ∈ oldContracts s, ∀ c' ∈ s.active, c.id ≠ c'.id := by
  have hI := reachable_inv h
  refine ⟨hI.count hlost, ?_⟩
  intro c hc c' hc' heq
  have hnd := hI.nodup
  have hassoc : allContracts s = s.active ++ (s.inactive ++ s.expired) := by
    unfold allContracts
    rw [List.append_assoc]
  rw [hassoc, List.map_append, List.nodup_append] at hnd
  have hdisj := hnd.2.2
  have hcid : c.id ∈ (s.inactive ++ s.expired).map Contract.id :=
    List.mem_map.mpr ⟨c, hc, rfl⟩
  have hcid' : c'.id ∈ s.active.map Contract.id :=
    List.mem_map.mpr ⟨c', hc', rfl⟩
  exact hdisj hcid' (heq ▸ hcid)

/-- C5: a window-triggered renewal sets every renewed contract's end height
to `currentPeriodStart + 2*period - renewWindow`
(src/unnamed/part_000:1012-1020), while a spending-exhaustion renewal
(whose trigger, `renterFunds / totalCost` below 3%, is the guard of
`Step.renewSpending`, pinned at src/unnamed/part_000:1834-1835) leaves each
contract's end height unchanged (src/unnamed/part_000:1031-1044). -/
theorem C5_renewal_end_heights {s s' : RenterState} {cost fee : Nat} :
    (Step s (StepKind.renewWindow cost fee) s' →
      ∀ c ∈ s'.active, c.goodForRenew = true →
        c.endHeight =
          s.currentPeriodStart + 2 * s.allowance.period - s.allowance.renewWindow) ∧
    (Step s (StepKind.renewSpending cost fee) s' →
      ∀ i, i < s.active.length →
        (s'.active.getD i cDefault).endHeight =
          (s.active.getD i cDefault).endHeight) := by
  constructor
  · intro hstep c hc _
    cases hstep with
    | renewWindow hn hall hfee hwallet halloc hheight =>
      dsimp only at hc
      rcases renewList_mem hc with ⟨c₀, _, m, _, _, rfl⟩
      rfl
  · intro hstep i hi
    cases hstep with
    | renewSpending hn hall hfee hwallet halloc hheight =>
      dsimp only
      rw [renewList_getD s.height cost fee _ cDefault s.active s.nextId i hi]
      rfl

/-! Concrete execution used by the witnesses: set an allowance, form one
contract, renew it through the renew window, spend most of its funds, and
renew it again through the spending trigger. -/

def aEx : Allowance := { funds := 1000, hosts := 1, period := 10, renewWindow := 10 }

def sEx0 : RenterState := initialState aEx 2 1 900 100

def cEx : Contract := freshContract 0 7 100 100 10 100 10

def sEx1 : RenterState :=
  { sEx0 with active := [cEx], nextId := 1, walletConfirmed := 800 }

def cEx2 : Contract := renewedContract cEx 1 100 110 50 5

def sEx2 : RenterState :=
  { sEx1 with
    active := [cEx2], inactive := [cEx], nextId := 2, numRenewals := 1
    walletConfirmed := 750 }

def cEx3 : Contract := addUpload 44 cEx2

def sEx3 : RenterState := { sEx2 with active := [cEx3] }

def cEx4 : Contract := renewedContract cEx3 2 100 110 50 5

def sEx4 : RenterState :=
  { sEx3 with
    active := [cEx4], inactive := [cEx3, cEx], nextId := 3, numRenewals := 2
    walletConfirmed := 700 }

theorem stepEx1 : Step sEx0 (StepKind.form 7 100 10) sEx1 :=
  Step.form sEx0 7 100 10 (by decide) (by decide) (by decide) (by decide) (by decide)

theorem stepEx2 : Step sEx1 (StepKind.renewWindow 50 5) sEx2 :=
  Step.renewWindow sEx1 50 5 (by decide) (by decide) (by decide) (by decide)
    (by decide) (by decide)

theorem stepEx3 : Step sEx2 (StepKind.spendUpload 44) sEx3 :=
  Step.spendUpload sEx2 [] [] cEx2 44 rfl (by decide)

theorem stepEx4 : Step sEx3 (StepKind.renewSpending 50 5) sEx4 :=
  Step.renewSpending sEx3 50 5 (by decide) (by decide) (by decide) (by decide)
    (by decide) (by decide)

theorem reachEx1 : Reachable sEx1 :=
  Reachable.step (Reachable.init aEx 2 1 900 100) stepEx1

theorem reachEx2 : Reachable sEx2 := Reachable.step reachEx1 stepEx2

theorem reachEx3 : Reachable sEx3 := Reachable.step reachEx2 stepEx3

theorem reachEx4 : Reachable sEx4 := Reachable.step reachEx3 stepEx4

/-- C1 witness: the reconciliation equation holds at the concrete reachable
state `sEx3` (one renewal and 44 hastings of upload spending deep). -/
theorem C1_metrics_reconciliation_witness :
    Reachable sEx3 ∧
    (financialMetrics sEx3).contractFees + (financialMetrics sEx3).uploadSpending +
      (financialMetrics sEx3).downloadSpending +
      (financialMetrics sEx3).storageSpending +
      (financialMetrics sEx3).unspent = 1000 :=
  ⟨reachEx3, C1_metrics_reconciliation reachEx3⟩

/-- C2 witness: the wallet-versus-spending equation holds at `sEx3`. -/
theorem C2_balance_vs_spending_witness :
    Reachable sEx3 ∧
    sEx3.initialWallet - sEx3.walletConfirmed =
      (financialMetrics sEx3).totalAllocated + (financialMetrics sEx3).withheldFunds +
        (financialMetrics sEx3).previousSpending :=
  ⟨reachEx3, C2_balance_vs_spending reachEx3⟩

/-- C3 witness: the window renewal from `sEx1` to `sEx2` produces a contract
with zero spending, the same host key and a fresh id, archiving `cEx`. -/
theorem C3_window_renewal_contracts_witness :
    (sEx2.active.getD 0 cDefault).uploadSpending = 0 ∧
    (sEx2.active.getD 0 cDefault).downloadSpending = 0 ∧
    (sEx2.active.getD 0 cDefault).hostKey = (sEx1.active.getD 0 cDefault).hostKey ∧
    (sEx2.active.getD 0 cDefault).id ≠ (sEx1.active.getD 0 cDefault).id ∧
    sEx1.active.getD 0 cDefault ∈ sEx2.inactive :=
  C3_window_renewal_contracts reachEx1 stepEx2 0 (by decide)

/-- C4 witness: after two full renewals with one host and no replacement,
`sEx4` has two old contracts and disjoint old/active ids. -/
theorem C4_old_contract_accounting_witness :
    Reachable sEx4 ∧ sEx4.contractsLost = false ∧
    (sEx4.inactive.length + sEx4.expired.length =
      sEx4.allowance.hosts * sEx4.numRenewals ∧
    ∀ c ∈ oldContracts sEx4, ∀ c' ∈ sEx4.active, c.id ≠ c'.id) :=
  ⟨reachEx4, rfl, C4_old_contract_accounting reachEx4 rfl⟩

/-- C5 witness: the window renewal into `sEx2` sets end height
`100 + 2*10 - 10`, and the spending renewal into `sEx4` keeps end height
unchanged. -/
theorem C5_renewal_end_heights_witness :
    (∀ c ∈ sEx2.active, c.goodForRenew = true →
      c.endHeight =
        sEx1.currentPeriodStart + 2 * sEx1.allowance.period -
          sEx1.allowance.renewWindow) ∧
    (sEx4.active.getD 0 cDefault).endHeight = (sEx3.active.getD 0 cDefault).endHeight :=
  ⟨(@C5_renewal_end_heights sEx1 sEx2 50 5).1 stepEx2,
   (@C5_renewal_end_heights sEx3 sEx4 50 5).2 stepEx4 0 (by decide)⟩

/-! The redundancy monitor and repair scheduler (spec §4.4 and §4.5).
Modelled from the spec: the renter's repair code is not under `src/`; the
redundancy values below are the ones the tests wait for
(`testRenterLocalRepair` src/unnamed/part_000:238-260,
`TestRedundancyReporting` src/unnamed/part_000:1900-1961,
`testRenterRemoteRepair` src/unnamed/part_000:296-322). -/

/-- A tracked one-chunk file: its erasure-coding parameters, the hosts
currently holding one piece each, and the redundancy last reported by
contract maintenance. -/
structure FileState where
  dataPieces : Nat
  parityPieces : Nat
  pieceHosts : List Nat
  reportedRedundancy : ℚ
deriving DecidableEq, Repr

/-- Redundancy of a chunk: distinct hosts holding a piece, over the number
of data pieces (spec §4.4). -/
def redundancy (d : Nat) (hosts : List Nat) : ℚ :=
  ((hosts.dedup.length : Nat) : ℚ) / (d : ℚ)

/-- A freshly uploaded file: one piece on each of the given hosts, reported
redundancy computed from the placement. -/
def uploadFile (d p : Nat) (hs : List Nat) : FileState :=
  { dataPieces := d, parityPieces := p, pieceHosts := hs
    reportedRedundancy := redundancy d hs }

/-- A host going offline removes its piece; the reported redundancy is
stale until the next maintenance cycle recomputes it. -/
def loseHost (h : Nat) (fs : FileState) : FileState :=
  { fs with pieceHosts := fs.pieceHosts.erase h }

/-- One contract-maintenance cycle: the reported redundancy is recomputed
from the current placement (spec §4.4, triggered by a mined block). -/
def maintenanceCycle (fs : FileState) : FileState :=
  { fs with reportedRedundancy := redundancy fs.dataPieces fs.pieceHosts }

/-- Local-source repair: the plaintext is on disk, so missing pieces are
re-encoded and placed on the given replacement hosts (spec §4.5). -/
def localRepair (newHosts : List Nat) (fs : FileState) : FileState :=
  { fs with pieceHosts := newHosts ++ fs.pieceHosts }

/-- C6: with D data and P parity pieces on D+P hosts, losing one host drops
the reported redundancy from `(D+P)/D` to `(D+P-1)/D` within one
maintenance cycle, and local repair onto a replacement host restores
`(D+P)/D` (src/unnamed/part_000:242-256 and 1907-1959). -/
theorem C6_redundancy_reporting (d p hLost hNew : Nat) (hs : List Nat)
    (hd : 0 < d) (hnd : hs.Nodup) (hlen : hs.length = d + p)
    (hmem : hLost ∈ hs) (hnew : hNew ∉ hs) :
    (uploadFile d p hs).reportedRedundancy = ((d + p : Nat) : ℚ) / (d : ℚ) ∧
    (maintenanceCycle (loseHost hLost (uploadFile d p hs))).reportedRedundancy =
      ((d + p - 1 : Nat) : ℚ) / (d : ℚ) ∧
    (maintenanceCycle (localRepair [hNew]
        (loseHost hLost (uploadFile d p hs)))).reportedRedundancy =
      ((d + p : Nat) : ℚ) / (d : ℚ) := by
  have hde : hs.dedup = hs := List.dedup_eq_self.mpr hnd
  have hnde : (hs.erase hLost).Nodup := hnd.erase hLost
  have hlene : (hs.erase hLost).length = d + p - 1 := by
    rw [List.length_erase_of_mem hmem, hlen]
  have hlenpos : 1 ≤ d + p := by
    have := List.length_pos.mpr (List.ne_nil_of_mem hmem)
    omega
  refine ⟨?_, ?_, ?_⟩
  · show redundancy d hs = ((d + p : Nat) : ℚ) / (d : ℚ)
    unfold redundancy
    rw [hde, hlen]
  · show redundancy d (hs.erase hLost) = ((d + p - 1 : Nat) : ℚ) / (d : ℚ)
    unfold redundancy
    rw [List.dedup_eq_self.mpr hnde, hlene]
  · show redundancy d ([hNew] ++ hs.erase hLost) = ((d + p : Nat) : ℚ) / (d : ℚ)
    have hnotin : hNew ∉ hs.erase hLost := fun hmem' =>
      hnew (List.mem_of_mem_erase hmem')
    have hndrep : (hNew :: hs.erase hLost).Nodup :=
      List.nodup_cons.mpr ⟨hnotin, hnde⟩
    have hlenrep : (hNew :: hs.erase hLost).length = d + p := by
      simp only [List.length_cons, hlene]
      omega
    unfold redundancy
    rw [List.singleton_append, List.dedup_eq_self.mpr hndrep, hlenrep]

/-- Modelled from the spec: the remote-repair threshold fraction
(`renter.RemoteRepairDownloadThreshold`, referenced at
src/unnamed/part_000:315 but defined in the renter implementation, which is
not under `src/`). -/
def RemoteRepairDownloadThreshold : ℚ := 1 / 4

/-- Remote-source repair: pieces are re-uploaded onto fresh hosts one at a
time until the redundancy target is met (or the host supply runs out);
existing pieces are never removed (spec §4.5). -/
def repairLoop (d : Nat) (target : ℚ) : List Nat → List Nat → List Nat
  | [], hosts => hosts
  | h :: rest, hosts =>
      if redundancy d hosts < target then repairLoop d target rest (h :: hosts)
      else hosts

theorem repairLoop_achieves (d : Nat) (hd : 0 < d) (target : ℚ) :
    ∀ (fresh hosts : List Nat), (fresh ++ hosts).Nodup →
      target * (d : ℚ) ≤ ((fresh.length + hosts.length : Nat) : ℚ) →
      target ≤ redundancy d (repairLoop d target fresh hosts) := by
  intro fresh
  induction fresh with
  | nil =>
    intro hosts hnd hle
    show target ≤ redundancy d hosts
    unfold redundancy
    rw [List.dedup_eq_self.mpr (by simpa using hnd)]
    rw [le_div_iff₀ (by exact_mod_cast hd)]
    simpa using hle
  | cons h rest ih =>
    intro hosts hnd hle
    by_cases hcond : redundancy d hosts < target
    · have heq : repairLoop d target (h :: rest) hosts =
          repairLoop d target rest (h :: hosts) := by
        simp [repairLoop, hcond]
      rw [heq]
      have hnd' : (rest ++ h :: hosts).Nodup := List.perm_middle.nodup_iff.mpr hnd
      refine ih (h :: hosts) hnd' ?_
      have hcast : ((rest.length + (h :: hosts).length : Nat) : ℚ) =
          (((h :: rest).length + hosts.length : Nat) : ℚ) := by
        simp only [List.length_cons]
        congr 1
        omega
      rw [hcast]
      exact hle
    · have heq : repairLoop d target (h :: rest) hosts = hosts := by
        simp [repairLoop, hcond]
      rw [heq]
      exact le_of_not_lt hcond

theorem repairLoop_keeps (d : Nat) (target : ℚ) :
    ∀ (fresh hosts : List Nat), ∃ pre : List Nat,
      repairLoop d target fresh hosts = pre ++ hosts := by
  intro fresh
  induction fresh with
  | nil =>
    intro hosts
    exact ⟨[], rfl⟩
  | cons h rest ih =>
    intro hosts
    by_cases hcond : redundancy d hosts < target
    · rcases ih (h :: hosts) with ⟨pre, hpre⟩
      refine ⟨pre ++ [h], ?_⟩
      simp only [repairLoop, if_pos hcond]
      rw [hpre]
      simp
    · exact ⟨[], by simp [repairLoop, hcond]⟩

theorem repairLoop_nodup (d : Nat) (target : ℚ) :
    ∀ (fresh hosts : List Nat), (fresh ++ hosts).Nodup →
      (repairLoop d target fresh hosts).Nodup := by
  intro fresh
  induction fresh with
  | nil =>
    intro hosts hnd
    simpa using hnd
  | cons h rest ih =>
    intro hosts hnd
    by_cases hcond : redundancy d hosts < target
    · have heq : repairLoop d target (h :: rest) hosts =
          repairLoop d target rest (h :: hosts) := by
        simp [repairLoop, hcond]
      rw [heq]
      exact ih (h :: hosts) (List.perm_middle.nodup_iff.mpr hnd)
    · have heq : repairLoop d target (h :: rest) hosts = hosts := by
        simp [repairLoop, hcond]
      rw [heq]
      exact ((List.sublist_append_right (h :: rest) hosts).nodup hnd)

/-- C7: a remote-source repair starting from a still-downloadable placement
(at least D pieces) and enough fresh hosts reaches at least
`(1 - remoteRepairDownloadThreshold) * originalRedundancy` — the bound the
test waits for (src/unnamed/part_000:314-316) — and the chunk stays
downloadable (at least D distinct pieces) at every intermediate state of
the repair. -/
theorem C7_remote_repair (d p : Nat) (t : ℚ) (fullHosts hosts₀ fresh : List Nat)
    (hd : 0 < d) (ht0 : 0 ≤ t) (ht1 : t ≤ 1)
    (hfl : fullHosts.length = d + p) (hfn : fullHosts.Nodup)
    (hdl : d ≤ hosts₀.length)
    (hnd : (fresh ++ hosts₀).Nodup)
    (henough : (1 - t) * ((d + p : Nat) : ℚ) ≤
      ((fresh.length + hosts₀.length : Nat) : ℚ)) :
    (1 - t) * redundancy d fullHosts ≤
      redundancy d
        (repairLoop d ((1 - t) * redundancy d fullHosts) fresh hosts₀) ∧
    ∀ k, d ≤ ((repairLoop d ((1 - t) * redundancy d fullHosts)
      (fresh.take k) hosts₀).dedup.length) := by
  have hdq : (0 : ℚ) < (d : ℚ) := by exact_mod_cast hd
  have hred : redundancy d fullHosts = ((d + p : Nat) : ℚ) / (d : ℚ) := by
    unfold redundancy
    rw [List.dedup_eq_self.mpr hfn, hfl]
  have htarget : (1 - t) * redundancy d fullHosts * (d : ℚ) =
      (1 - t) * ((d + p : Nat) : ℚ) := by
    rw [hred, mul_assoc, div_mul_cancel₀]
    exact ne_of_gt hdq
  constructor
  · refine repairLoop_achieves d hd _ fresh hosts₀ hnd ?_
    rw [htarget]
    exact henough
  · intro k
    have hsub : (fresh.take k ++ hosts₀).Sublist (fresh ++ hosts₀) :=
      (List.take_sublist k fresh).append_right hosts₀
    have hndk : (fresh.take k ++ hosts₀).Nodup := hsub.nodup hnd
    have hndres := repairLoop_nodup d ((1 - t) * redundancy d fullHosts)
      (fresh.take k) hosts₀ hndk
    rcases repairLoop_keeps d ((1 - t) * redundancy d fullHosts)
      (fresh.take k) hosts₀ with ⟨pre, hpre⟩
    rw [List.dedup_eq_self.mpr hndres, hpre]
    simp only [List.length_append]
    omega

/-- C6 witness: a 1-of-3 file on hosts 0, 1, 2 reports redundancy 3, drops
to 2 after host 0 is lost, and returns to 3 after repair onto host 9. -/
theorem C6_redundancy_reporting_witness :
    (uploadFile 1 2 [0, 1, 2]).reportedRedundancy =
      ((1 + 2 : Nat) : ℚ) / ((1 : Nat) : ℚ) ∧
    (maintenanceCycle (loseHost 0 (uploadFile 1 2 [0, 1, 2]))).reportedRedundancy =
      ((1 + 2 - 1 : Nat) : ℚ) / ((1 : Nat) : ℚ) ∧
    (maintenanceCycle (localRepair [9]
        (loseHost 0 (uploadFile 1 2 [0, 1, 2])))).reportedRedundancy =
      ((1 + 2 : Nat) : ℚ) / ((1 : Nat) : ℚ) :=
  C6_redundancy_reporting 1 2 0 9 [0, 1, 2] (by decide) (by decide) rfl
    (by decide) (by decide)

/-- C7 witness: a 1-of-4 file reduced to one piece on host 0 is remote
repaired with fresh hosts 10, 11, 12 up to at least
`(1 - 1/4) * 4` data-piece redundancy, staying downloadable throughout. -/
theorem C7_remote_repair_witness :
    (1 - RemoteRepairDownloadThreshold) * redundancy 1 [0, 1, 2, 3] ≤
      redundancy 1 (repairLoop 1
        ((1 - RemoteRepairDownloadThreshold) * redundancy 1 [0, 1, 2, 3])
        [10, 11, 12] [0]) ∧
    ∀ k, 1 ≤ ((repairLoop 1
      ((1 - RemoteRepairDownloadThreshold) * redundancy 1 [0, 1, 2, 3])
      ([10, 11, 12].take k) [0]).dedup.length) :=
  C7_remote_repair 1 3 RemoteRepairDownloadThreshold [0, 1, 2, 3] [0] [10, 11, 12]
    (by decide) (by norm_num [RemoteRepairDownloadThreshold])
    (by norm_num [RemoteRepairDownloadThreshold]) rfl (by decide) (by decide)
    (by decide) (by norm_num [RemoteRepairDownloadThreshold])

/-! The download history (spec §3 DownloadRecord, §4.6). -/

/-- One entry of the download history; `numBytes` stands for the remaining
record fields (byte range, outcome). -/
structure DownloadRecord where
  startTime : Nat
  numBytes : Nat
deriving DecidableEq, Repr

/-- Modelled from the spec: clearing the download history by range
(`RenterClearDownloadsRangePost(after, before)`).  The renter
implementation is not under `src/`; the bounds are inclusive, as pinned by
`testClearDownloadHistory`, which removes the single record with
`startTime = t` by calling the range clear with `after = before = t`
(src/unnamed/part_000:2626-2642). -/
def clearDownloadRange (a b : Nat) (hist : List DownloadRecord) :
    List DownloadRecord :=
  hist.filter fun r => !(decide (a ≤ r.startTime) && decide (r.startTime ≤ b))

/-- C8 counterexample: with `after = 5 < before = 7`, the range clear
removes the record with `startTime = 5`, although filtering by the strict
predicate `5 < startTime < 7` of the claim would keep it. -/
theorem C8_strict_range_counterexample :
    (5 : Nat) < 7 ∧
    clearDownloadRange 5 7 [{ startTime := 5, numBytes := 0 }] = [] ∧
    List.filter
        (fun r => !(decide (5 < r.startTime) && decide (r.startTime < 7)))
        [({ startTime := 5, numBytes := 0 } : DownloadRecord)] =
      [{ startTime := 5, numBytes := 0 }] := by
  refine ⟨by decide, ?_, ?_⟩ <;> rfl

/-- C8 (amended): for `t1 < t2`, the range clear removes exactly the
records with `t1 ≤ startTime ≤ t2` (bounds inclusive) and, being a filter,
leaves the relative order of the remaining records unchanged. -/
theorem C8_clear_range_inclusive (t1 t2 : Nat) (hist : List DownloadRecord)
    (hlt : t1 < t2) :
    (∀ r, r ∈ clearDownloadRange t1 t2 hist ↔
      r ∈ hist ∧ ¬ (t1 ≤ r.startTime ∧ r.startTime ≤ t2)) ∧
    (clearDownloadRange t1 t2 hist).Sublist hist := by
  constructor
  · intro r
    simp only [clearDownloadRange, List.mem_filter, Bool.not_eq_eq_eq_not,
      Bool.not_true, Bool.and_eq_false_imp, decide_eq_true_eq,
      decide_eq_false_iff_not]
    constructor
    · intro ⟨hm, himp⟩
      exact ⟨hm, by omega⟩
    · intro ⟨hm, hno⟩
      exact ⟨hm, by omega⟩
  · exact List.filter_sublist hist

/-- C8 witness: clearing `[2, 3, 5, 9]` by the range `(3, 8)` keeps exactly
the records at times 2 and 9, in order. -/
theorem C8_clear_range_inclusive_witness :
    (3 : Nat) < 8 ∧
    ((∀ r, r ∈ clearDownloadRange 3 8
        [{ startTime := 2, numBytes := 0 }, { startTime := 3, numBytes := 1 },
          { startTime := 5, numBytes := 2 }, { startTime := 9, numBytes := 3 }] ↔
      r ∈ [{ startTime := 2, numBytes := 0 }, { startTime := 3, numBytes := 1 },
          { startTime := 5, numBytes := 2 }, { startTime := 9, numBytes := 3 }] ∧
        ¬ (3 ≤ r.startTime ∧ r.startTime ≤ 8)) ∧
    (clearDownloadRange 3 8
        [{ startTime := 2, numBytes := 0 }, { startTime := 3, numBytes := 1 },
          { startTime := 5, numBytes := 2 }, { startTime := 9, numBytes := 3 }]).Sublist
      [{ startTime := 2, numBytes := 0 }, { startTime := 3, numBytes := 1 },
        { startTime := 5, numBytes := 2 }, { startTime := 9, numBytes := 3 }]) :=
  ⟨by decide,
   C8_clear_range_inclusive 3 8
     [{ startTime := 2, numBytes := 0 }, { startTime := 3, numBytes := 1 },
       { startTime := 5, numBytes := 2 }, { startTime := 9, numBytes := 3 }]
     (by decide)⟩

/-! Renter settings: stream cache size and persistence (spec §4.6, §6;
`testRenterStreamingCache` src/unnamed/part_000:541-553 and
`TestRenterPersistData` src/unnamed/part_000:820-865). -/

structure RenterSettings where
  streamCacheSize : Nat
  maxDownloadSpeed : Int
  maxUploadSpeed : Int
deriving DecidableEq, Repr

/-- Modelled from the spec: setting the stream cache size rejects zero as
invalid configuration and otherwise takes effect immediately (spec §4.6,
§6; the implementation is not under `src/`). -/
def setStreamCacheSize (n : Nat) (s : RenterSettings) :
    Except String RenterSettings :=
  if n = 0 then Except.error "stream cache size must be greater than zero"
  else Except.ok { s with streamCacheSize := n }

/-- The settings in effect after a set request: unchanged when the request
errors (spec §7: configuration errors have no side effects). -/
def applyStreamCacheSize (n : Nat) (s : RenterSettings) : RenterSettings :=
  match setStreamCacheSize n s with
  | Except.ok s' => s'
  | Except.error _ => s

/-- Modelled from the spec: the persisted settings file round-trips the
stream cache size and the rate limits across a restart (spec §6). -/
def saveSettings (s : RenterSettings) : List Int :=
  [(s.streamCacheSize : Int), s.maxDownloadSpeed, s.maxUploadSpeed]

/-- Loading the persisted settings file (spec §6). -/
def loadSettings : List Int → Option RenterSettings
  | [c, dl, ul] =>
      some { streamCacheSize := c.toNat, maxDownloadSpeed := dl, maxUploadSpeed := ul }
  | _ => none

/-- C9: setting the stream cache size to 0 fails synchronously and leaves
the previous settings in effect; setting it to a positive `n` succeeds,
takes effect immediately, and survives a save/load round trip
(src/unnamed/part_000:541-553 and 820-865). -/
theorem C9_stream_cache_size (s : RenterSettings) (n : Nat) (hn : 0 < n) :
    (∃ e, setStreamCacheSize 0 s = Except.error e) ∧
    applyStreamCacheSize 0 s = s ∧
    applyStreamCacheSize n s = { s with streamCacheSize := n } ∧
    (applyStreamCacheSize n s).streamCacheSize = n ∧
    loadSettings (saveSettings (applyStreamCacheSize n s)) =
      some { s with streamCacheSize := n } := by
  have hne : n ≠ 0 := by omega
  have happ : applyStreamCacheSize n s = { s with streamCacheSize := n } := by
    simp [applyStreamCacheSize, setStreamCacheSize, hne]
  refine ⟨⟨_, rfl⟩, rfl, happ, by rw [happ], ?_⟩
  rw [happ]
  simp [saveSettings, loadSettings]

/-- C9 witness: with previous cache size 2, setting 0 fails and leaves 2 in
effect, while setting 4 takes effect and round-trips through persistence. -/
theorem C9_stream_cache_size_witness :
    (0 : Nat) < 4 ∧
    ((∃ e, setStreamCacheSize 0
        { streamCacheSize := 2, maxDownloadSpeed := 20, maxUploadSpeed := 10 } =
        Except.error e) ∧
    applyStreamCacheSize 0
        { streamCacheSize := 2, maxDownloadSpeed := 20, maxUploadSpeed := 10 } =
      { streamCacheSize := 2, maxDownloadSpeed := 20, maxUploadSpeed := 10 } ∧
    applyStreamCacheSize 4
        { streamCacheSize := 2, maxDownloadSpeed := 20, maxUploadSpeed := 10 } =
      { streamCacheSize := 4, maxDownloadSpeed := 20, maxUploadSpeed := 10 } ∧
    (applyStreamCacheSize 4
        { streamCacheSize := 2, maxDownloadSpeed := 20, maxUploadSpeed := 10 }).streamCacheSize = 4 ∧
    loadSettings (saveSettings (applyStreamCacheSize 4
        { streamCacheSize := 2, maxDownloadSpeed := 20, maxUploadSpeed := 10 })) =
      some { streamCacheSize := 4, maxDownloadSpeed := 20, maxUploadSpeed := 10 }) :=
  ⟨by decide,
   C9_stream_cache_size
     { streamCacheSize := 2, maxDownloadSpeed := 20, maxUploadSpeed := 10 } 4
     (by decide)⟩

/-! The file listing API (spec §6; `testSingleFileGet`
src/unnamed/part_000:137-152). -/

/-- The fields of a tracked file exposed by the file queries (spec §6). -/
structure FileInfo where
  siaPath : String
  filesize : Nat
  available : Bool
  redundancy : ℚ
  uploadProgress : ℚ
  uploadedBytes : Nat
deriving DecidableEq, Repr

/-- Modelled from the spec: the renter's set of tracked files; paths are
unique since a file is created at one path at upload time (spec §3). -/
structure RenterFiles where
  files : List FileInfo
deriving DecidableEq, Repr

/-- The bulk file listing, `Files()` (spec §6). -/
def Files (r : RenterFiles) : List FileInfo := r.files

/-- The single-file query, `File(siaPath)` (spec §6). -/
def File (r : RenterFiles) (p : String) : Option FileInfo :=
  r.files.find? fun f => f.siaPath == p

theorem find_by_path (l : List FileInfo)
    (hnd : (l.map FileInfo.siaPath).Nodup) :
    ∀ f ∈ l, (l.find? fun g => g.siaPath == f.siaPath) = some f := by
  induction l with
  | nil =>
    intro f hf
    cases hf
  | cons g l ih =>
    intro f hf
    rcases List.mem_cons.mp hf with rfl | hf
    · simp [List.find?_cons_of_pos]
    · have hne : ¬ ((g.siaPath == f.siaPath) = true) := by
        simp only [beq_iff_eq]
        intro heq
        have hmem : f.siaPath ∈ l.map FileInfo.siaPath :=
          List.mem_map.mpr ⟨f, hf, rfl⟩
        exact (List.nodup_cons.mp hnd).1 (heq ▸ hmem)
      rw [List.find?_cons_of_neg _ (by simpa using hne)]
      exact ih (List.nodup_cons.mp hnd).2 f hf

/-- C10: when tracked paths are unique, the single-file query returns, for
every file of the bulk listing, exactly that listing's record
(src/unnamed/part_000:142-151: `file != f` fails the test). -/
theorem C10_single_file_get (r : RenterFiles)
    (hpaths : ((Files r).map FileInfo.siaPath).Nodup) :
    ∀ f ∈ Files r, File r f.siaPath = some f := by
  intro f hf
  exact find_by_path r.files hpaths f hf

/-- C10 witness: on a concrete two-file renter, the single-file query for
the second file returns its bulk-listing record. -/
theorem C10_single_file_get_witness :
    ((Files { files :=
      [{ siaPath := "backup.dat", filesize := 100, available := true,
         redundancy := 3, uploadProgress := 1, uploadedBytes := 300 },
       { siaPath := "photo.jpg", filesize := 50, available := true,
         redundancy := 2, uploadProgress := 1, uploadedBytes := 100 }] }).map
           FileInfo.siaPath).Nodup ∧
    File { files :=
      [{ siaPath := "backup.dat", filesize := 100, available := true,
         redundancy := 3, uploadProgress := 1, uploadedBytes := 300 },
       { siaPath := "photo.jpg", filesize := 50, available := true,
         redundancy := 2, uploadProgress := 1, uploadedBytes := 100 }] }
      "photo.jpg" =
      some { siaPath := "photo.jpg", filesize := 50, available := true,
             redundancy := 2, uploadProgress := 1, uploadedBytes := 100 } :=
  ⟨by decide,
   C10_single_file_get
     { files :=
       [{ siaPath := "backup.dat", filesize := 100, available := true,
          redundancy := 3, uploadProgress := 1, uploadedBytes := 300 },
        { siaPath := "photo.jpg", filesize := 50, available := true,
          redundancy := 2, uploadProgress := 1, uploadedBytes := 100 }] }
     (by decide)
     { siaPath := "photo.jpg", filesize := 50, available := true,
       redundancy := 2, uploadProgress := 1, uploadedBytes := 100 }
     (by decide)⟩

end Sia
